import Mathlib

/-!
Verification of the `hfstol` runtime (a pure-Python runtime for HFST
optimized-lookup transducers) against its natural-language specification.

The Python sources `hfstol/shared.py`, `hfstol/transducer.py` and
`hfstol/main.py` are shallowly embedded below: Python dicts become
association lists, mutable cursors (`Indexlist`) become immutable records
that functions return updated copies of, the recursive search engine becomes
a fuel-indexed interpreter (`none` = the Python call did not return normally,
i.e. it diverged or raised), and binary file input becomes a list of byte
values (`List Nat`).

The module `hfstol/constants.py` is not part of the provided sources; the
three constants it defines are modelled from the spec (section 3):
`NO_SYMBOL = 0xFFFF`, `NO_TABLE_INDEX = 0xFFFFFFFF`,
`TRANSITION_TABLE_START = 0x80000000`, under the names the rest of the
source uses.
-/

namespace Hfstol

/-- Modelled from the spec: `NO_SYMBOL = 0xFFFF` (constants.py is not in the
source tree; this is the sentinel "no symbol here"). -/
def NO_SYMBOL_NUMBER : Nat := 0xFFFF

/-- Modelled from the spec: `NO_TABLE_INDEX = 0xFFFFFFFF`. -/
def NO_TABLE_INDEX : Nat := 0xFFFFFFFF

/-- Modelled from the spec: `TRANSITION_TABLE_START = 0x80000000`, named as in
the source (`TRANSITION_TARGET_TABLE_START`). -/
def TRANSITION_TARGET_TABLE_START : Nat := 0x80000000

/-! ### Association lists: the model of Python `dict`

Python dict reads become `lookupA`, writes become `insertA` (replace the
existing binding or append a fresh one), `del` becomes `eraseA`.  Keys are
unique in every dict the source builds, so first-match lookup is faithful. -/

def lookupA {α β : Type} [DecidableEq α] : List (α × β) → α → Option β
  | [], _ => none
  | (k, v) :: rest, a => if k = a then some v else lookupA rest a

def insertA {α β : Type} [DecidableEq α] : List (α × β) → α → β → List (α × β)
  | [], a, b => [(a, b)]
  | (k, v) :: rest, a, b => if k = a then (a, b) :: rest else (k, v) :: insertA rest a b

def eraseA {α β : Type} [DecidableEq α] : List (α × β) → α → List (α × β)
  | [], _ => []
  | (k, v) :: rest, a => if k = a then rest else (k, v) :: eraseA rest a

/-! ### `Indexlist` (shared.py): a list together with a moving position -/

structure Indexlist (α : Type) where
  s : List α
  pos : Nat
deriving Repr, DecidableEq

namespace Indexlist

/-- `Indexlist()` / `Indexlist([])`: fresh empty container. -/
def empty {α : Type} : Indexlist α := ⟨[], 0⟩

/-- `get()` (adjustment 0): `self.s[self.pos]`; `none` models the
`IndexError` Python would raise out of range. -/
def get? {α : Type} (l : Indexlist α) : Option α := l.s[l.pos]?

/-- `get(-1)`: `self.s[self.pos - 1]`.  The engine only calls this after
incrementing `pos`, so `pos ≥ 1` at every reachable call; Python's negative
indexing for `pos = 0` is therefore not modelled. -/
def getPrev? {α : Type} (l : Indexlist α) : Option α := l.s[l.pos - 1]?

/-- `put(val)` (adjustment 0): overwrite in place when `pos` is inside the
list, append otherwise. -/
def put {α : Type} (l : Indexlist α) (val : α) : Indexlist α :=
  if l.pos < l.s.length then { l with s := l.s.set l.pos val } else { l with s := l.s ++ [val] }

/-- `self.pos += 1`. -/
def incPos {α : Type} (l : Indexlist α) : Indexlist α := { l with pos := l.pos + 1 }

/-- `self.pos -= 1`. -/
def decPos {α : Type} (l : Indexlist α) : Indexlist α := { l with pos := l.pos - 1 }

end Indexlist

/-! ### The letter trie (shared.py, class `LetterTrie`)

`Node.symbols` has keys that are one-character strings (or, for
`add("", n)`, the empty string), `Node.children` has single-character keys;
both model the Python dicts of the same names. -/

inductive Node where
  | node (symbols : List (List Char × Nat)) (children : List (Char × Node)) : Node

def Node.empty : Node := .node [] []

/-- `Node.add` (shared.py lines 90-101): descend on the first character for
strings of length > 1, record into `symbols` for length 1, and record under
the empty key for the empty string. -/
def Node.add : Node → List Char → Nat → Node
  | .node syms ch, [], n => .node (insertA syms [] n) ch
  | .node syms ch, [c], n => .node (insertA syms [c] n) ch
  | .node syms ch, c :: c2 :: rest, n =>
    match lookupA ch c with
    | some child => .node syms (insertA ch c (child.add (c2 :: rest) n))
    | none => .node syms (insertA ch c (Node.empty.add (c2 :: rest) n))

/-- `Node.find` (shared.py lines 103-123), reformulated on the suffix
`s[pos..]` of the cursor: the result is the returned symbol number paired
with the net cursor movement.  The Python original mutates `indexstring.pos`;
branch by branch: `pos ≥ len(s)` is the `[]` case (movement 0); otherwise the
cursor is tentatively advanced by 1 and the recursive call moves it by `k`
more, so the fallback-failure branch `indexstring.pos -= 1` yields net
movement `(1 + k) - 1` and the success branches yield `1` resp. `1 + k`. -/
def Node.findAux : Node → List Char → Nat × Nat
  | _, [] => (NO_SYMBOL_NUMBER, 0)
  | .node syms ch, c :: rest =>
    match lookupA ch c with
    | none =>
      match lookupA syms [c] with
      | none => (NO_SYMBOL_NUMBER, 0)
      | some n => (n, 1)
    | some child =>
      let r := child.findAux rest
      if r.1 = NO_SYMBOL_NUMBER then
        match lookupA syms [c] with
        | none => (NO_SYMBOL_NUMBER, (1 + r.2) - 1)
        | some n => (n, 1 + r.2)
      else (r.1, 1 + r.2)

/-- `Node.find` on the cursor interface of the source. -/
def Node.find (t : Node) (indexstring : Indexlist Char) : Nat × Indexlist Char :=
  let r := t.findAux (indexstring.s.drop indexstring.pos)
  (r.1, { indexstring with pos := indexstring.pos + r.2 })

structure LetterTrie where
  root : Node

def LetterTrie.addString (t : LetterTrie) (string : List Char) (symbolNumber : Nat) :
    LetterTrie := ⟨t.root.add string symbolNumber⟩

def LetterTrie.findKey (t : LetterTrie) (indexstring : Indexlist Char) :
    Nat × Indexlist Char := t.root.find indexstring

/-- The `for x in range(header.number_of_symbols): letterTrie.addString(key_table[x], x)`
loop of `Transducer.__init__` (transducer.py lines 72-74). -/
def addAll (t : Node) : List (List Char) → Nat → Node
  | [], _ => t
  | k :: rest, i => addAll (t.add k i) rest (i + 1)

def buildTrie (keyTable : List (List Char)) : Node := addAll Node.empty keyTable 0

/-- The registration paths of a trie, mirroring the branching of `Node.add`:
`lookup t k` is the symbol number the trie holds at the end of path `k`. -/
def Node.lookup : Node → List Char → Option Nat
  | .node syms _, [] => lookupA syms []
  | .node syms _, [c] => lookupA syms [c]
  | .node _ ch, c :: c2 :: rest =>
    match lookupA ch c with
    | none => none
    | some child => child.lookup (c2 :: rest)

/-- Well-formed trie: no stored symbol number collides with the
`NO_SYMBOL_NUMBER` sentinel that `find` uses to report failure.  Every trie
the transducer builds is well-formed, because symbol numbers are indices
below `number_of_symbols ≤ 0xFFFF` (a 16-bit count). -/
inductive Node.WFv : Node → Prop where
  | mk (syms : List (List Char × Nat)) (ch : List (Char × Node))
      (hs : ∀ q ∈ syms, q.2 ≠ NO_SYMBOL_NUMBER)
      (hc : ∀ q ∈ ch, Node.WFv q.2) : Node.WFv (.node syms ch)
/-- The symbol number an alphabet registers for a key string: the last
`addString` with that exact string wins (Python dict assignment overwrites),
and the symbol numbers count up from `i`. -/
def regAux : List (List Char) → Nat → List Char → Option Nat
  | [], _, _ => none
  | key :: rest, i, k =>
    match regAux rest (i + 1) k with
    | some n => some n
    | none => if key = k then some i else none

/-- The symbol number the alphabet registers for `k` (`none` when no slot of
the key table holds exactly `k`). -/
def registered (keyTable : List (List Char)) (k : List Char) : Option Nat :=
  regAux keyTable 0 k
/-! ### Flag diacritics (shared.py, classes `FlagDiacriticOperation` and
`FlagDiacriticStateStack`)

A stack frame is a Python dict `feature -> (value, polarity)`; the stack is
modelled with its top at the head (Python appends the top at the end of a
list — a pure renaming of positions).  `operation` is a one-character string
in the source (the parser only ever stores a single character there). -/

structure FlagDiacriticOperation where
  operation : Char
  feature : String
  value : String
deriving Repr, DecidableEq

def Frame : Type := List (String × (String × Bool))

instance : DecidableEq Frame := by
  unfold Frame
  infer_instance

instance : Repr Frame := by
  unfold Frame
  infer_instance

/-- The empty top frame `dict()` the stack starts from. -/
def Frame.empty : Frame := []

/-- `FlagDiacriticStateStack.push` (shared.py lines 187-235).  The Python
method mutates `self.stack` and returns `True`/`False`; here it returns the
pair (returned boolean, resulting stack).  `none` models the `IndexError` a
call on an empty stack would raise (never reachable: the stack always holds
at least one frame).  `duplicate()` followed by mutation of the copy becomes
consing the modified copy of the top frame. -/
def push (stack : List Frame) (fd : FlagDiacriticOperation) : Option (Bool × List Frame) :=
  match stack with
  | [] => none
  | T :: rest =>
    if fd.operation = 'P' then
      some (true, insertA T fd.feature (fd.value, true) :: T :: rest)
    else if fd.operation = 'N' then
      some (true, insertA T fd.feature (fd.value, false) :: T :: rest)
    else if fd.operation = 'R' then
      if fd.value = "" then
        match lookupA T fd.feature with
        | none => some (false, T :: rest)
        | some _ => some (true, T :: T :: rest)
      else if lookupA T fd.feature = some (fd.value, true) then
        some (true, T :: T :: rest)
      else some (false, T :: rest)
    else if fd.operation = 'D' then
      if fd.value = "" then
        match lookupA T fd.feature with
        | none => some (true, T :: T :: rest)
        | some _ => some (false, T :: rest)
      else if lookupA T fd.feature = some (fd.value, true) then
        some (false, T :: rest)
      else some (true, T :: T :: rest)
    else if fd.operation = 'C' then
      some (true, eraseA T fd.feature :: T :: rest)
    else if fd.operation = 'U' then
      match lookupA T fd.feature with
      | none => some (true, insertA T fd.feature (fd.value, true) :: T :: rest)
      | some (v, pol) =>
        if (v = fd.value && pol) || (!pol && v ≠ fd.value) then
          some (true, insertA T fd.feature (fd.value, true) :: T :: rest)
        else some (false, T :: rest)
    else
      -- an unknown operation falls off the end of the Python method and
      -- returns `None`, which the caller treats as failure
      some (false, T :: rest)

/-! ### The transducer tables (transducer.py) -/

structure TransitionIndex where
  inputSymbol : Nat
  target : Nat
deriving Repr, DecidableEq

/-- `TransitionIndex.isFinal` (transducer.py lines 18-20). -/
def TransitionIndex.isFinal (x : TransitionIndex) : Bool :=
  x.inputSymbol = NO_SYMBOL_NUMBER && x.target ≠ NO_TABLE_INDEX

structure Transition where
  inputSymbol : Nat
  outputSymbol : Nat
  target : Nat
deriving Repr, DecidableEq

/-- `Transition.isFinal` (transducer.py lines 40-43). -/
def Transition.isFinal (x : Transition) : Bool :=
  x.inputSymbol = NO_SYMBOL_NUMBER && x.outputSymbol = NO_SYMBOL_NUMBER && x.target = 1

/-- The immutable part of a `Transducer`: alphabet key table, flag-diacritic
registry, and the two tables.  The letter trie is the one `__init__` builds,
see `Transducer.letterTrie`. -/
structure Transducer where
  key_table : List String
  flagDiacriticOperations : List (Nat × FlagDiacriticOperation)
  indices : List TransitionIndex
  transitions : List Transition
deriving Repr, DecidableEq

/-- The letter trie `Transducer.__init__` builds: `addString(key_table[x], x)`
for each slot `x` in order. -/
def Transducer.letterTrie (m : Transducer) : LetterTrie :=
  ⟨buildTrie (m.key_table.map String.toList)⟩

/-- The mutable fields `Transducer.__init__` creates on the object
(transducer.py lines 79-82); every one of them is written by the search. -/
structure SearchState where
  inputString : Indexlist Nat
  outputString : Indexlist Nat
  stateStack : List Frame
  output_list : List (List String)
  displayVector : List String
deriving Repr, DecidableEq

instance {ε α : Type} [DecidableEq ε] [DecidableEq α] : DecidableEq (Except ε α) := fun a b =>
  match a, b with
  | .error e1, .error e2 =>
    if h : e1 = e2 then .isTrue (by rw [h]) else .isFalse (by intro hc; cases hc; exact h rfl)
  | .error _, .ok _ => .isFalse (by intro hc; cases hc)
  | .ok _, .error _ => .isFalse (by intro hc; cases hc)
  | .ok a1, .ok a2 =>
    if h : a1 = a2 then .isTrue (by rw [h]) else .isFalse (by intro hc; cases hc; exact h rfl)

/-- The state of a freshly constructed `Transducer` (empty `Indexlist`s, a
stack holding one empty frame, empty result lists). -/
def SearchState.fresh : SearchState :=
  { inputString := Indexlist.empty
    outputString := Indexlist.empty
    stateStack := [Frame.empty]
    output_list := []
    displayVector := [] }

/-- `TransitionTable.isFinal(pos)` (transducer.py lines 63-66); `none` models
the `IndexError` an out-of-range table access raises. -/
def Transducer.transitionIsFinal (m : Transducer) (pos : Nat) : Option Bool :=
  if TRANSITION_TARGET_TABLE_START ≤ pos then
    (m.transitions[pos - TRANSITION_TARGET_TABLE_START]?).map Transition.isFinal
  else
    (m.transitions[pos]?).map Transition.isFinal

/-- The loop body of `Transducer.noteAnalysis` (transducer.py lines 149-162):
walk `outputString.s` from the start, stop at the first `NO_SYMBOL_NUMBER`,
translate each symbol number through the key table and drop empty strings.
Returns the collected `symbol_list` and the concatenated `output` string. -/
def noteAnalysisAux (key_table : List String) : List Nat → Option (List String × String)
  | [] => some ([], "")
  | x :: rest =>
    if x = NO_SYMBOL_NUMBER then some ([], "")
    else
      match key_table[x]? with
      | none => none
      | some key =>
        match noteAnalysisAux key_table rest with
        | none => none
        | some (l, out) =>
          if key = "" then some (l, out) else some (key :: l, key ++ out)

/-- `Transducer.noteAnalysis`: append the translated analysis to
`output_list` and the concatenated string to `displayVector`. -/
def Transducer.noteAnalysis (m : Transducer) (st : SearchState) : Option SearchState :=
  match noteAnalysisAux m.key_table st.outputString.s with
  | none => none
  | some (symbol_list, output) =>
    some { st with
            output_list := st.output_list ++ [symbol_list]
            displayVector := st.displayVector ++ [output] }

/-- The five mutually recursive routines of the search engine. -/
inductive Call where
  | getAnalyses (index : Nat)
  | tryEpsilonIndices (index : Nat)
  | tryEpsilonTransitions (index : Nat)
  | findIndex (index : Nat)
  | findTransitions (index : Nat)
deriving Repr, DecidableEq

/-- The search engine of transducer.py (lines 84-147), as a fuel-indexed
interpreter: every Python call and every loop iteration costs one unit of
fuel, and `none` means the Python original would not have returned normally
within that budget (it recursed deeper, raised, or looped).  Loops
(`while True` in `tryEpsilonTransitions`, `while ...` in `findTransitions`)
are expressed as tail calls on `index + 1`.  Table reads out of range and
`pop` of an empty stack yield `none` (Python `IndexError`).  Where the
Python subtraction `target - TRANSITION_TARGET_TABLE_START` would go
negative (a malformed table, which Python would turn into negative list
indexing), the natural-number subtraction truncates at zero; no reachable
state of a well-formed table hits this. -/
def Transducer.run (m : Transducer) : Nat → SearchState → Call → Option SearchState
  | 0, _, _ => none
  | fuel + 1, st, c =>
    match c with
    | .tryEpsilonIndices index =>
      match m.indices[index]? with
      | none => none
      | some ti =>
        if ti.inputSymbol = 0 then
          m.run fuel st (.tryEpsilonTransitions (ti.target - TRANSITION_TARGET_TABLE_START))
        else some st
    | .tryEpsilonTransitions index =>
      match m.transitions[index]? with
      | none => none
      | some tr =>
        if tr.inputSymbol = 0 then
          let st1 := { st with outputString := (st.outputString.put tr.outputSymbol).incPos }
          match m.run fuel st1 (.getAnalyses tr.target) with
          | none => none
          | some st2 =>
            m.run fuel { st2 with outputString := st2.outputString.decPos }
              (.tryEpsilonTransitions (index + 1))
        else
          match lookupA m.flagDiacriticOperations tr.inputSymbol with
          | some fd =>
            match push st.stateStack fd with
            | none => none
            | some (false, stack1) =>
              -- illegal state modification; skip the transition
              m.run fuel { st with stateStack := stack1 } (.tryEpsilonTransitions (index + 1))
            | some (true, stack1) =>
              let st1 := { st with
                            stateStack := stack1
                            outputString := (st.outputString.put tr.outputSymbol).incPos }
              match m.run fuel st1 (.getAnalyses tr.target) with
              | none => none
              | some st2 =>
                match st2.stateStack with
                | [] => none
                | _ :: popped =>
                  m.run fuel
                    { st2 with stateStack := popped, outputString := st2.outputString.decPos }
                    (.tryEpsilonTransitions (index + 1))
          | none => some st
    | .findIndex index =>
      match st.inputString.getPrev? with
      | none => none
      | some cur =>
        match m.indices[index + cur]? with
        | none => none
        | some ti =>
          if ti.inputSymbol = cur then
            m.run fuel st (.findTransitions (ti.target - TRANSITION_TARGET_TABLE_START))
          else some st
    | .findTransitions index =>
      match m.transitions[index]? with
      | none => none
      | some tr =>
        if tr.inputSymbol = NO_SYMBOL_NUMBER then some st
        else
          match st.inputString.getPrev? with
          | none => none
          | some cur =>
            if tr.inputSymbol = cur then
              let st1 := { st with outputString := (st.outputString.put tr.outputSymbol).incPos }
              match m.run fuel st1 (.getAnalyses tr.target) with
              | none => none
              | some st2 =>
                m.run fuel { st2 with outputString := st2.outputString.decPos }
                  (.findTransitions (index + 1))
            else some st
    | .getAnalyses index =>
      if TRANSITION_TARGET_TABLE_START ≤ index then
        let i := index - TRANSITION_TARGET_TABLE_START
        match m.run fuel st (.tryEpsilonTransitions (i + 1)) with
        | none => none
        | some st1 =>
          match st1.inputString.get? with
          | none => none
          | some cur =>
            if cur = NO_SYMBOL_NUMBER then
              match m.transitionIsFinal i with
              | none => none
              | some final =>
                if final then
                  match m.noteAnalysis st1 with
                  | none => none
                  | some st2 =>
                    some { st2 with outputString := st2.outputString.put NO_SYMBOL_NUMBER }
                else
                  some { st1 with outputString := st1.outputString.put NO_SYMBOL_NUMBER }
            else
              let st2 := { st1 with inputString := st1.inputString.incPos }
              match m.run fuel st2 (.findTransitions (i + 1)) with
              | none => none
              | some st3 =>
                some { st3 with
                        inputString := st3.inputString.decPos
                        outputString := st3.outputString.put NO_SYMBOL_NUMBER }
      else
        match m.run fuel st (.tryEpsilonIndices (index + 1)) with
        | none => none
        | some st1 =>
          match st1.inputString.get? with
          | none => none
          | some cur =>
            if cur = NO_SYMBOL_NUMBER then
              match m.indices[index]? with
              | none => none
              | some ti =>
                if ti.isFinal then
                  match m.noteAnalysis st1 with
                  | none => none
                  | some st2 =>
                    some { st2 with outputString := st2.outputString.put NO_SYMBOL_NUMBER }
                else
                  some { st1 with outputString := st1.outputString.put NO_SYMBOL_NUMBER }
            else
              let st2 := { st1 with inputString := st1.inputString.incPos }
              match m.run fuel st2 (.findIndex (index + 1)) with
              | none => none
              | some st3 =>
                some { st3 with
                        inputString := st3.inputString.decPos
                        outputString := st3.outputString.put NO_SYMBOL_NUMBER }

/-- The tokenization loop of `Transducer.analyze` (transducer.py lines
171-173).  The Python loop condition is
`input_line.pos < len(input_line.s) and self.inputString.last != NO_SYMBOL_NUMBER`;
`self.inputString.last` is the *unapplied bound method* (the call parentheses
are missing in the source), so the second conjunct compares a method object
against an integer and is always true — it is therefore absent here. -/
def tokenizeLoop (trie : LetterTrie) : Indexlist Char → List Nat → Nat → Option (List Nat)
  | _, _, 0 => none
  | input_line, acc, fuel + 1 =>
    if input_line.pos < input_line.s.length then
      let r := trie.findKey input_line
      tokenizeLoop trie r.2 (acc ++ [r.1]) fuel
    else some acc

/-- `Transducer.analyze` (transducer.py lines 166-183): reset `outputString`
and `output_list`, tokenize (appending onto the existing `inputString.s`),
return `False` if the last token is `NO_SYMBOL_NUMBER` (with the state as it
stands), else append the terminator, search from index 0, and reset the
per-call fields before returning `True`.  `none`: the Python call raised or
looped without returning. -/
def Transducer.analyze (m : Transducer) (st : SearchState) (fuel : Nat)
    (string : List Char) : Option (Bool × SearchState) :=
  let st0 : SearchState :=
    { st with outputString := ⟨[NO_SYMBOL_NUMBER], 0⟩, output_list := [] }
  match tokenizeLoop m.letterTrie ⟨string, 0⟩ st0.inputString.s fuel with
  | none => none
  | some toks =>
    match toks.getLast? with
    | none => none
    | some lastTok =>
      if lastTok = NO_SYMBOL_NUMBER then
        some (false, { st0 with inputString := { st0.inputString with s := toks } })
      else
        let st1 : SearchState :=
          { st0 with inputString := { st0.inputString with s := toks ++ [NO_SYMBOL_NUMBER] } }
        match m.run fuel st1 (.getAnalyses 0) with
        | none => none
        | some st2 =>
          some (true,
            { st2 with
                displayVector := []
                outputString := Indexlist.empty
                inputString := Indexlist.empty
                stateStack := [Frame.empty] })

/-! ### The facade (main.py) -/

/-- The loop of `concat_res` (main.py lines 278-295), carrying the running
`buffer`, the `encountered` flag and the accumulated result. -/
def concatGo (buffer : String) (encountered : Bool) (res : List String) :
    List String → List String
  | [] => if encountered then res ++ [buffer] else res
  | symbol :: rest =>
    if symbol.length = 1 then concatGo (buffer ++ symbol) true res rest
    else concatGo buffer false ((if encountered then res ++ [buffer] else res) ++ [symbol]) rest

/-- `concat_res` (main.py lines 278-295). -/
def concat_res (i : List String) : List String := concatGo "" false [] i

/-- `HFSTOL.feed` (main.py lines 48-77): empty input short-circuits to the
empty result; otherwise run `analyze` and post-process `output_list`. -/
def feed (m : Transducer) (st : SearchState) (fuel : Nat) (surface_form : List Char)
    (concat : Bool) : Option (List (List String)) :=
  if surface_form = [] then some []
  else
    match m.analyze st fuel surface_form with
    | none => none
    | some (true, st2) =>
      some (if concat then st2.output_list.map concat_res else st2.output_list)
    | some (false, _) => some []

/-! ### The binary loader (shared.py classes `Header` and `Alphabet`,
main.py `HFSTOL.from_file`)

A file is a list of byte values.  Little-endian integers are read with
`leNum`; each distinct abnormal outcome of the Python loader gets its own
`LoadError` constructor. -/

inductive LoadError where
  /-- `struct.error`: the buffer handed to `unpack_from` is too short. -/
  | truncated
  /-- `UnicodeDecodeError` from `bytes.decode("utf-8")`. -/
  | decodeError
  /-- `IndexError: list assignment index out of range`. -/
  | indexError
  /-- The symbol loop hits end of file: `file.read(1)` returns `b""`
  forever and the Python `while True` never exits. -/
  | eofLoop
  /-- `NotImplementedError("weighted hfstol is not implemented")`. -/
  | notImplementedWeighted
deriving Repr, DecidableEq

/-- Little-endian value of a byte list. -/
def leNum : List Nat → Nat
  | [] => 0
  | b :: rest => b + 256 * leNum rest

def u16at (buf : List Nat) (off : Nat) : Nat := leNum ((buf.drop off).take 2)

def u32at (buf : List Nat) (off : Nat) : Nat := leNum ((buf.drop off).take 4)

def flagAt (buf : List Nat) (off : Nat) : Bool := u32at buf off ≠ 0

structure Header where
  number_of_input_symbols : Nat
  number_of_symbols : Nat
  size_of_transition_index_table : Nat
  size_of_transition_target_table : Nat
  number_of_states : Nat
  number_of_transitions : Nat
  weighted : Bool
  deterministic : Bool
  input_deterministic : Bool
  minimized : Bool
  cyclic : Bool
  has_epsilon_epsilon_transitions : Bool
  has_input_epsilon_transitions : Bool
  has_input_epsilon_cycles : Bool
  has_unweighted_input_epsilon_cycles : Bool
deriving Repr, DecidableEq

/-- The field extraction of `Header.__init__` (shared.py lines 19-33) from
the 56-byte buffer. -/
def parseHeaderFields (buf : List Nat) : Header :=
  { number_of_input_symbols := u16at buf 0
    number_of_symbols := u16at buf 2
    size_of_transition_index_table := u32at buf 4
    size_of_transition_target_table := u32at buf 8
    number_of_states := u32at buf 12
    number_of_transitions := u32at buf 16
    weighted := flagAt buf 20
    deterministic := flagAt buf 24
    input_deterministic := flagAt buf 28
    minimized := flagAt buf 32
    cyclic := flagAt buf 36
    has_epsilon_epsilon_transitions := flagAt buf 40
    has_input_epsilon_transitions := flagAt buf 44
    has_input_epsilon_cycles := flagAt buf 48
    has_unweighted_input_epsilon_cycles := flagAt buf 52 }

/-- `Header.__init__` (shared.py lines 10-38).  Note the source reads
*three* bytes after the magic (`file.read(3)`) and unpacks the 16-bit
preamble length from the first two of them, discarding the third; it then
reads `remaining` bytes (`_handle_hfst3_header`) and finally the 56-byte
fixed header.  Returns the header and the unconsumed remainder of the
stream. -/
def parseHeader (stream : List Nat) : Except LoadError (Header × List Nat) :=
  if stream.length < 5 then .error .truncated
  else
    let magic := stream.take 5
    let rest := stream.drop 5
    if magic = [72, 70, 83, 84, 0] then
      let chunk := rest.take 3
      if chunk.length < 2 then .error .truncated
      else
        let remaining := leNum (chunk.take 2)
        let rest2 := rest.drop 3
        if rest2.length < remaining then .error .truncated
        else
          let rest3 := rest2.drop remaining
          if rest3.length < 56 then .error .truncated
          else .ok (parseHeaderFields (rest3.take 56), rest3.drop 56)
    else
      if stream.length < 56 then .error .truncated
      else .ok (parseHeaderFields (stream.take 56), stream.drop 56)

/-- A continuation byte `0x80..0xBF`. -/
def isCont (b : Nat) : Bool := 0x80 ≤ b && b < 0xC0

/-- Strict UTF-8 decoding of a byte list (the behaviour of Python
`bytes.decode(encoding="utf-8")`): 1-4 byte sequences, continuation bytes
checked, overlong encodings, surrogates and values above `0x10FFFF`
rejected. -/
def utf8Decode : List Nat → Option (List Char)
  | [] => some []
  | b :: rest =>
    if b < 0x80 then (utf8Decode rest).map (fun cs => Char.ofNat b :: cs)
    else if b < 0xC2 then none
    else if b < 0xE0 then
      match rest with
      | b1 :: rest1 =>
        if isCont b1 then
          (utf8Decode rest1).map
            (fun cs => Char.ofNat ((b - 0xC0) * 0x40 + (b1 - 0x80)) :: cs)
        else none
      | [] => none
    else if b < 0xF0 then
      match rest with
      | b1 :: b2 :: rest2 =>
        if isCont b1 && isCont b2 then
          let cp := (b - 0xE0) * 0x1000 + (b1 - 0x80) * 0x40 + (b2 - 0x80)
          if cp < 0x800 || (0xD800 ≤ cp && cp < 0xE000) then none
          else (utf8Decode rest2).map (fun cs => Char.ofNat cp :: cs)
        else none
      | _ => none
    else if b < 0xF5 then
      match rest with
      | b1 :: b2 :: b3 :: rest3 =>
        if isCont b1 && isCont b2 && isCont b3 then
          let cp := (b - 0xF0) * 0x40000 + (b1 - 0x80) * 0x1000 +
            (b2 - 0x80) * 0x40 + (b3 - 0x80)
          if cp < 0x10000 || 0x110000 ≤ cp then none
          else (utf8Decode rest3).map (fun cs => Char.ofNat cp :: cs)
        else none
      | _ => none
    else none

/-- The `while True: byte = file.read(1) ...` loop of `Alphabet.__init__`:
collect bytes up to the next NUL.  `none`: the stream has no NUL left, so
`file.read(1)` returns `b""` forever and the loop never exits. -/
def splitAtNul : List Nat → Option (List Nat × List Nat)
  | [] => none
  | 0 :: rest => some ([], rest)
  | b :: rest => (splitAtNul rest).map (fun p => (b :: p.1, p.2))

/-- Python `str.split(".")` on a character list. -/
def splitDots : List Char → List (List Char)
  | [] => [[]]
  | c :: rest =>
    if c = '.' then [] :: splitDots rest
    else
      match splitDots rest with
      | [] => [[c]]
      | p :: ps => (c :: p) :: ps

/-- One slot of the alphabet loop in `Alphabet.__init__` (shared.py lines
50-75), after the symbol has been decoded: either a flag diacritic (store an
empty string in the key table, register the operation) or a plain symbol. -/
def classifySymbol (cs : List Char) : String × Option FlagDiacriticOperation :=
  if 4 < cs.length ∧ cs.head? = some '@' ∧ cs.getLast? = some '@'
      ∧ cs[2]? = some '.' ∧ (cs[1]? = some 'P' ∨ cs[1]? = some 'N' ∨ cs[1]? = some 'R'
        ∨ cs[1]? = some 'D' ∨ cs[1]? = some 'C' ∨ cs[1]? = some 'U') then
    match splitDots (cs.drop 1 |>.dropLast) with
    | [op, feat] =>
      ("", some ⟨op.headD 'P', ⟨feat⟩, ""⟩)
    | [op, feat, val] =>
      ("", some ⟨op.headD 'P', ⟨feat⟩, ⟨val⟩⟩)
    | _ => (⟨cs⟩, none)
  else (⟨cs⟩, none)

structure Alphabet where
  key_table : List String
  flagDiacriticOperations : List (Nat × FlagDiacriticOperation)
deriving Repr, DecidableEq

/-- The `for x in range(number_of_symbols)` loop of `Alphabet.__init__`:
`x` is the slot being filled, `n` the number of slots still to fill. -/
def parseAlphabetLoop (x : Nat) (kt : List String)
    (ops : List (Nat × FlagDiacriticOperation)) :
    List Nat → Nat → Except LoadError (List String × List (Nat × FlagDiacriticOperation) × List Nat)
  | stream, 0 => .ok (kt, ops, stream)
  | stream, n + 1 =>
    match splitAtNul stream with
    | none => .error .eofLoop
    | some (symBytes, rest) =>
      match utf8Decode symBytes with
      | none => .error .decodeError
      | some cs =>
        match classifySymbol cs with
        | (key, none) => parseAlphabetLoop (x + 1) (kt ++ [key]) ops rest n
        | (key, some fd) =>
          parseAlphabetLoop (x + 1) (kt ++ [key]) (insertA ops x fd) rest n

/-- `Alphabet.__init__` (shared.py lines 44-78): read
`number_of_symbols` NUL-terminated symbols, then force slot 0 to the empty
string — `key_table[0] = ""` raises `IndexError` when the key table is
empty. -/
def parseAlphabet (stream : List Nat) (number_of_symbols : Nat) :
    Except LoadError (Alphabet × List Nat) :=
  match parseAlphabetLoop 0 [] [] stream number_of_symbols with
  | .error e => .error e
  | .ok (kt, ops, rest) =>
    match kt with
    | [] => .error .indexError
    | _ :: tail => .ok (⟨"" :: tail, ops⟩, rest)

/-- `IndexTable.__init__` (transducer.py lines 24-28): `n` records of 6
bytes each, `(u16, u32)` little-endian. -/
def parseIndexTable (buf : List Nat) (n : Nat) : List TransitionIndex :=
  (List.range n).map (fun x => ⟨u16at buf (x * 6), u32at buf (x * 6 + 2)⟩)

/-- `TransitionTable.__init__` (transducer.py lines 47-52): `n` records of 8
bytes each, `(u16, u16, u32)` little-endian. -/
def parseTransitionTable (buf : List Nat) (n : Nat) : List Transition :=
  (List.range n).map (fun x => ⟨u16at buf (x * 8), u16at buf (x * 8 + 2), u32at buf (x * 8 + 4)⟩)

/-- `HFSTOL.from_file` (main.py lines 132-148) together with the table
reads of `Transducer.__init__`: header, alphabet, the weighted check (which
the source performs only after the alphabet has been read), then the two
tables. -/
def from_file (stream : List Nat) : Except LoadError (Header × Transducer) :=
  match parseHeader stream with
  | .error e => .error e
  | .ok (header, rest) =>
    match parseAlphabet rest header.number_of_symbols with
    | .error e => .error e
    | .ok (alphabet, rest2) =>
      if header.weighted then .error .notImplementedWeighted
      else
        if rest2.length < header.size_of_transition_index_table * 6 then .error .truncated
        else
          let ibuf := rest2.take (header.size_of_transition_index_table * 6)
          let rest3 := rest2.drop (header.size_of_transition_index_table * 6)
          if rest3.length < header.size_of_transition_target_table * 8 then .error .truncated
          else
            let tbuf := rest3.take (header.size_of_transition_target_table * 8)
            .ok (header,
              { key_table := alphabet.key_table
                flagDiacriticOperations := alphabet.flagDiacriticOperations
                indices := parseIndexTable ibuf header.size_of_transition_index_table
                transitions := parseTransitionTable tbuf header.size_of_transition_target_table })

/-! ### Specification-side definitions (written from the spec's words, for
comparison with the source-side definitions above) -/

/-- Modelled from the spec: the six-operation table of section 4.3, acting
on the top frame `T` of a stack `T :: rest`.  Returns (success, new stack):
on success a new frame (a modified copy of `T`) is pushed, on failure the
stack stays `T :: rest`. -/
def specPush (fd : FlagDiacriticOperation) (T : Frame) (rest : List Frame) :
    Bool × List Frame :=
  match fd.operation with
  | 'P' => (true, insertA T fd.feature (fd.value, true) :: T :: rest)
  | 'N' => (true, insertA T fd.feature (fd.value, false) :: T :: rest)
  | 'R' =>
    if fd.value ≠ "" then
      if lookupA T fd.feature = some (fd.value, true) then (true, T :: T :: rest)
      else (false, T :: rest)
    else
      if (lookupA T fd.feature).isSome then (true, T :: T :: rest)
      else (false, T :: rest)
  | 'D' =>
    if fd.value ≠ "" then
      if lookupA T fd.feature = some (fd.value, true) then (false, T :: rest)
      else (true, T :: T :: rest)
    else
      if (lookupA T fd.feature).isNone then (true, T :: T :: rest)
      else (false, T :: rest)
  | 'C' => (true, eraseA T fd.feature :: T :: rest)
  | 'U' =>
    if (lookupA T fd.feature).isNone
        || (lookupA T fd.feature = some (fd.value, true) : Bool)
        || (match lookupA T fd.feature with
            | some (v, false) => v ≠ fd.value
            | _ => false) then
      (true, insertA T fd.feature (fd.value, true) :: T :: rest)
    else (false, T :: rest)
  | _ => (false, T :: rest)

/-- The concatenation of the single-character symbols of a list, in order
(the contents the `concat_res` buffer accumulates: it is never emptied). -/
def allSingles : List String → String
  | [] => ""
  | x :: rest => if x.length = 1 then x ++ allSingles rest else allSingles rest

/-- Whether the `encountered` flag is set after processing a list: exactly
when the list ends with a single-character symbol. -/
def lastIsSingle (seen : List String) : Bool :=
  match seen.getLast? with
  | some x => x.length = 1
  | none => false

/-- The amended concatenation rule, phrased over the processed prefix
`seen`: a long symbol (or the end of the list) arriving while the flag is
set flushes the single characters of the *entire* prefix so far as one
string; long symbols pass through unchanged. -/
def amendedConcatGo (seen : List String) : List String → List String
  | [] => if lastIsSingle seen then [allSingles seen] else []
  | x :: rest =>
    if x.length = 1 then amendedConcatGo (seen ++ [x]) rest
    else
      (if lastIsSingle seen then [allSingles seen, x] else [x]) ++
        amendedConcatGo (seen ++ [x]) rest

/-- The amended concatenation rule applied to a whole symbol list. -/
def amendedConcat (l : List String) : List String := amendedConcatGo [] l

/-! ### Concrete instances used by counterexamples and witnesses -/

/-- A transducer whose alphabet holds only the symbol `"a"`: any input
containing another character cannot be tokenized. -/
def mUntok : Transducer :=
  { key_table := ["", "a"]
    flagDiacriticOperations := []
    indices := []
    transitions := [] }

/-- A tiny transducer over the alphabet `["", "a", "X"]` accepting the input
`"a"` with output `"a"` through transition 1; its accepting state (final
marker at transition 2) also carries an epsilon arc (transition 3, output
`"X"`) into a dead state.  The engine explores the epsilon branch before
emitting, so the stale `"X"` it leaves at the current output position is
swept into the emitted analysis. -/
def mEps : Transducer :=
  { key_table := ["", "a", "X"]
    flagDiacriticOperations := []
    indices :=
      [ ⟨NO_SYMBOL_NUMBER, NO_TABLE_INDEX⟩
      , ⟨NO_SYMBOL_NUMBER, NO_TABLE_INDEX⟩
      , ⟨1, TRANSITION_TARGET_TABLE_START + 1⟩ ]
    transitions :=
      [ ⟨NO_SYMBOL_NUMBER, NO_SYMBOL_NUMBER, 0⟩
      , ⟨1, 1, TRANSITION_TARGET_TABLE_START + 2⟩
      , ⟨NO_SYMBOL_NUMBER, NO_SYMBOL_NUMBER, 1⟩
      , ⟨0, 2, TRANSITION_TARGET_TABLE_START + 5⟩
      , ⟨NO_SYMBOL_NUMBER, NO_SYMBOL_NUMBER, 0⟩
      , ⟨NO_SYMBOL_NUMBER, NO_SYMBOL_NUMBER, 0⟩
      , ⟨NO_SYMBOL_NUMBER, NO_SYMBOL_NUMBER, 0⟩ ] }

/-- The state `analyze mEps SearchState.fresh _ "a"` returns: the per-call
fields are reset, but `output_list` keeps the (buggy) analysis. -/
def mEpsPost : SearchState :=
  { inputString := Indexlist.empty
    outputString := Indexlist.empty
    stateStack := [Frame.empty]
    output_list := [["a", "X"]]
    displayVector := [] }

/-- A transducer with one flag-diacritic symbol (number 1) whose operation
`@R.F.v@` fails on the fresh (empty-frame) stack; transition 1 carries it. -/
def mFlag : Transducer :=
  { key_table := ["", "", "a"]
    flagDiacriticOperations := [(1, ⟨'R', "F", "v"⟩)]
    indices := [ ⟨NO_SYMBOL_NUMBER, NO_TABLE_INDEX⟩ ]
    transitions :=
      [ ⟨NO_SYMBOL_NUMBER, NO_SYMBOL_NUMBER, 0⟩
      , ⟨1, 0, TRANSITION_TARGET_TABLE_START + 0⟩
      , ⟨NO_SYMBOL_NUMBER, NO_SYMBOL_NUMBER, 0⟩ ] }

/-- A 56-byte header block whose first field (`number_of_input_symbols`,
little-endian 16 bits) is 7 and whose other fields are zero. -/
def hdrBlock : List Nat := 7 :: 0 :: List.replicate 54 0

/-- A stream laid out exactly as the claim C8 describes the format:
magic, a two-byte little-endian length 0, no preamble bytes, the 56-byte
header block, then further (table) bytes. -/
def streamC8 : List Nat := [72, 70, 83, 84, 0] ++ [0, 0] ++ hdrBlock ++ List.replicate 8 9

/-! ### Supporting lemmas -/

theorem lookupA_insertA_self {α β : Type} [DecidableEq α] (l : List (α × β)) (a : α) (b : β) :
    lookupA (insertA l a b) a = some b := by
  induction l with
  | nil => simp [insertA, lookupA]
  | cons p rest ih =>
    obtain ⟨k, v⟩ := p
    by_cases h : k = a <;> simp [insertA, lookupA, h, ih]

theorem lookupA_insertA_ne {α β : Type} [DecidableEq α] (l : List (α × β)) (a c : α) (b : β)
    (h : c ≠ a) : lookupA (insertA l a b) c = lookupA l c := by
  induction l with
  | nil => simp [insertA, lookupA, Ne.symm h]
  | cons p rest ih =>
    obtain ⟨k, v⟩ := p
    by_cases hk : k = a
    · subst hk
      simp [insertA, lookupA, Ne.symm h, h]
    · by_cases hc : k = c <;> simp [insertA, lookupA, hk, hc, ih, h]

theorem mem_insertA {α β : Type} [DecidableEq α] {l : List (α × β)} {a : α} {b : β}
    {q : α × β} (h : q ∈ insertA l a b) : q = (a, b) ∨ q ∈ l := by
  induction l with
  | nil => simpa [insertA] using h
  | cons p rest ih =>
    obtain ⟨k, v⟩ := p
    by_cases hk : k = a
    · rw [insertA, if_pos hk] at h
      rcases List.mem_cons.mp h with h1 | h1
      · exact Or.inl h1
      · exact Or.inr (List.mem_cons_of_mem _ h1)
    · rw [insertA, if_neg hk] at h
      rcases List.mem_cons.mp h with h1 | h1
      · exact Or.inr (by simp [h1])
      · rcases ih h1 with h2 | h2
        · exact Or.inl h2
        · exact Or.inr (List.mem_cons_of_mem _ h2)

theorem lookupA_mem {α β : Type} [DecidableEq α] {l : List (α × β)} {a : α} {b : β}
    (h : lookupA l a = some b) : (a, b) ∈ l := by
  induction l with
  | nil => simp [lookupA] at h
  | cons p rest ih =>
    obtain ⟨k, v⟩ := p
    by_cases hk : k = a
    · subst hk
      rw [lookupA, if_pos rfl] at h
      simp only [Option.some.injEq] at h
      simp [h]
    · rw [lookupA, if_neg hk] at h
      exact List.mem_cons_of_mem _ (ih h)



theorem Node.WFv.syms_ne {syms : List (List Char × Nat)} {ch : List (Char × Node)}
    (h : Node.WFv (.node syms ch)) {k : List Char} {n : Nat}
    (hl : lookupA syms k = some n) : n ≠ NO_SYMBOL_NUMBER := by
  cases h with
  | mk _ _ hs hc => exact hs _ (lookupA_mem hl)

theorem Node.WFv.child {syms : List (List Char × Nat)} {ch : List (Char × Node)}
    (h : Node.WFv (.node syms ch)) {c : Char} {t : Node}
    (hl : lookupA ch c = some t) : Node.WFv t := by
  cases h with
  | mk _ _ hs hc => exact hc _ (lookupA_mem hl)

theorem Node.wf_empty : Node.WFv Node.empty := by
  exact Node.WFv.mk [] [] (by simp) (by simp)

theorem Node.wf_add : ∀ (k : List Char) (t : Node) (n : Nat),
    Node.WFv t → n ≠ NO_SYMBOL_NUMBER → Node.WFv (t.add k n) := by
  intro k
  induction k with
  | nil =>
    intro t n ht hn
    obtain ⟨syms, ch⟩ := t
    cases ht with
    | mk _ _ hs hc =>
      refine Node.WFv.mk _ _ ?_ hc
      intro q hq
      rcases mem_insertA hq with h1 | h1
      · simp [h1, hn]
      · exact hs _ h1
  | cons c rest ih =>
    intro t n ht hn
    obtain ⟨syms, ch⟩ := t
    cases rest with
    | nil =>
      cases ht with
      | mk _ _ hs hc =>
        refine Node.WFv.mk _ _ ?_ hc
        intro q hq
        rcases mem_insertA hq with h1 | h1
        · simp [h1, hn]
        · exact hs _ h1
    | cons c2 rest2 =>
      cases ht with
      | mk _ _ hs hc =>
        rw [Node.add]
        cases hch : lookupA ch c with
        | some child =>
          refine Node.WFv.mk _ _ hs ?_
          intro q hq
          rcases mem_insertA hq with h1 | h1
          · rw [h1]
            exact ih child n (hc _ (lookupA_mem hch)) hn
          · exact hc _ h1
        | none =>
          refine Node.WFv.mk _ _ hs ?_
          intro q hq
          rcases mem_insertA hq with h1 | h1
          · rw [h1]
            exact ih Node.empty n Node.wf_empty hn
          · exact hc _ h1

theorem Node.lookup_empty : ∀ k : List Char, Node.empty.lookup k = none := by
  intro k
  match k with
  | [] => rfl
  | [c] => rfl
  | c :: c2 :: rest => rfl

theorem Node.lookup_add_self : ∀ (k : List Char) (t : Node) (n : Nat),
    (t.add k n).lookup k = some n := by
  intro k
  induction k with
  | nil =>
    intro t n
    obtain ⟨syms, ch⟩ := t
    simp [Node.add, Node.lookup, lookupA_insertA_self]
  | cons c rest ih =>
    intro t n
    obtain ⟨syms, ch⟩ := t
    cases rest with
    | nil => simp [Node.add, Node.lookup, lookupA_insertA_self]
    | cons c2 rest2 =>
      rw [Node.add]
      cases hch : lookupA ch c with
      | some child => simp [Node.lookup, lookupA_insertA_self, ih]
      | none => simp [Node.lookup, lookupA_insertA_self, ih]

theorem Node.lookup_add_ne : ∀ (k k2 : List Char) (t : Node) (n : Nat), k2 ≠ k →
    (t.add k n).lookup k2 = t.lookup k2 := by
  intro k
  induction k with
  | nil =>
    intro k2 t n hne
    obtain ⟨syms, ch⟩ := t
    match k2 with
    | [] => exact absurd rfl hne
    | [c'] =>
      rw [Node.add]
      simp only [Node.lookup]
      exact lookupA_insertA_ne syms [] [c'] n (by simp)
    | c' :: d2 :: r2 => simp [Node.add, Node.lookup]
  | cons c rest ih =>
    intro k2 t n hne
    obtain ⟨syms, ch⟩ := t
    cases rest with
    | nil =>
      match k2 with
      | [] =>
        rw [Node.add]
        simp only [Node.lookup]
        exact lookupA_insertA_ne syms [c] [] n (by simp)
      | [c'] =>
        have h2 : ([c'] : List Char) ≠ [c] := hne
        rw [Node.add]
        simp only [Node.lookup]
        exact lookupA_insertA_ne syms [c] [c'] n h2
      | c' :: d2 :: r2 => simp [Node.add, Node.lookup]
    | cons c2 rest2 =>
      match k2 with
      | [] =>
        rw [Node.add]
        cases hch : lookupA ch c with
        | some child => simp [Node.lookup]
        | none => simp [Node.lookup]
      | [c'] =>
        rw [Node.add]
        cases hch : lookupA ch c with
        | some child => simp [Node.lookup]
        | none => simp [Node.lookup]
      | c' :: d2 :: r2 =>
        rw [Node.add]
        by_cases hcc : c' = c
        · subst hcc
          have htl : (d2 :: r2 : List Char) ≠ c2 :: rest2 := by
            intro hh
            exact hne (by rw [hh])
          cases hch : lookupA ch c' with
          | some child =>
            simp only [Node.lookup, lookupA_insertA_self, hch]
            exact ih (d2 :: r2) child n htl
          | none =>
            simp only [Node.lookup, lookupA_insertA_self, hch]
            rw [ih (d2 :: r2) Node.empty n htl, Node.lookup_empty]
        · cases hch : lookupA ch c with
          | some child =>
            simp only [Node.lookup, lookupA_insertA_ne _ _ _ _ hcc]
          | none =>
            simp only [Node.lookup, lookupA_insertA_ne _ _ _ _ hcc]



theorem lookup_addAll : ∀ (kt : List (List Char)) (i : Nat) (t : Node) (k : List Char),
    (addAll t kt i).lookup k =
      match regAux kt i k with
      | some n => some n
      | none => t.lookup k := by
  intro kt
  induction kt with
  | nil => intro i t k; rfl
  | cons key rest ih =>
    intro i t k
    rw [addAll, ih, regAux]
    cases hr : regAux rest (i + 1) k with
    | some n => simp
    | none =>
      by_cases hk : key = k
      · subst hk
        simp [Node.lookup_add_self]
      · have : k ≠ key := fun hh => hk hh.symm
        simp [hk, Node.lookup_add_ne _ _ _ _ this]

theorem lookup_buildTrie (kt : List (List Char)) (k : List Char) :
    (buildTrie kt).lookup k = registered kt k := by
  rw [buildTrie, lookup_addAll, registered]
  cases regAux kt 0 k with
  | some n => simp
  | none => simp [Node.lookup_empty]

theorem wf_addAll : ∀ (kt : List (List Char)) (i : Nat) (t : Node),
    Node.WFv t → i + kt.length ≤ NO_SYMBOL_NUMBER → Node.WFv (addAll t kt i) := by
  intro kt
  induction kt with
  | nil => intro i t ht _; exact ht
  | cons key rest ih =>
    intro i t ht hlen
    rw [addAll]
    refine ih (i + 1) _ ?_ ?_
    · refine Node.wf_add key t i ht ?_
      intro hcontra
      rw [List.length_cons] at hlen
      omega
    · rw [List.length_cons] at hlen
      omega

theorem wf_buildTrie (kt : List (List Char)) (h : kt.length ≤ NO_SYMBOL_NUMBER) :
    Node.WFv (buildTrie kt) :=
  wf_addAll kt 0 Node.empty Node.wf_empty (by omega)


theorem Node.lookup_cons (syms : List (List Char × Nat)) (ch : List (Char × Node))
    (c : Char) (tail : List Char) :
    (Node.node syms ch).lookup (c :: tail) =
      if tail = [] then lookupA syms [c]
      else
        match lookupA ch c with
        | none => none
        | some child => child.lookup tail := by
  cases tail with
  | nil => simp [Node.lookup]
  | cons c2 r => simp [Node.lookup]

/-- The heart of the `find` contract: on a well-formed trie, `findAux`
returns the value registered for the longest registered prefix of the
remaining input and consumes exactly that prefix; when no nonempty prefix is
registered it returns `NO_SYMBOL_NUMBER` and consumes nothing. -/
theorem Node.findAux_spec : ∀ (rest : List Char) (t : Node), Node.WFv t →
    ((t.findAux rest).1 = NO_SYMBOL_NUMBER →
      (t.findAux rest).2 = 0 ∧
      ∀ L, 1 ≤ L → L ≤ rest.length → t.lookup (rest.take L) = none)
    ∧ ((t.findAux rest).1 ≠ NO_SYMBOL_NUMBER →
      1 ≤ (t.findAux rest).2 ∧ (t.findAux rest).2 ≤ rest.length ∧
      t.lookup (rest.take (t.findAux rest).2) = some (t.findAux rest).1 ∧
      ∀ L, (t.findAux rest).2 < L → L ≤ rest.length → t.lookup (rest.take L) = none) := by
  intro rest
  induction rest with
  | nil =>
    intro t _
    obtain ⟨syms, ch⟩ := t
    constructor
    · intro _
      refine ⟨rfl, ?_⟩
      intro L h1 h2
      simp at h2
      omega
    · intro h
      exact absurd rfl h
  | cons c rest ih =>
    intro t hwf
    obtain ⟨syms, ch⟩ := t
    cases hch : lookupA ch c with
    | none =>
      cases hsym : lookupA syms [c] with
      | none =>
        have hres : Node.findAux (.node syms ch) (c :: rest) = (NO_SYMBOL_NUMBER, 0) := by
          rw [Node.findAux, hch, hsym]
        rw [hres]
        constructor
        · intro _
          refine ⟨rfl, ?_⟩
          intro L h1 h2
          cases L with
          | zero => omega
          | succ M =>
            rw [List.take_succ_cons, Node.lookup_cons]
            by_cases hM : rest.take M = []
            · simp [hM, hsym]
            · simp [hM, hch]
        · intro h
          exact absurd rfl h
      | some n =>
        have hn : n ≠ NO_SYMBOL_NUMBER := hwf.syms_ne hsym
        have hres : Node.findAux (.node syms ch) (c :: rest) = (n, 1) := by
          rw [Node.findAux, hch, hsym]
        rw [hres]
        constructor
        · intro h
          exact absurd h hn
        · intro _
          refine ⟨le_refl 1, by simp, ?_, ?_⟩
          · simp [Node.lookup_cons, hsym]
          · intro L h1 h2
            cases L with
            | zero => omega
            | succ M =>
              have hM : rest.take M ≠ [] := by
                have : M ≠ 0 := by omega
                have hlen : M ≤ rest.length := by simp at h2; omega
                intro hcontra
                rcases List.take_eq_nil_iff.mp hcontra with h3 | h3
                · exact this h3
                · rw [h3] at hlen
                  simp at hlen
                  omega
              rw [List.take_succ_cons, Node.lookup_cons, if_neg hM, hch]
    | some child =>
      have hwfc : Node.WFv child := hwf.child hch
      have IH := ih child hwfc
      by_cases hr1 : (child.findAux rest).1 = NO_SYMBOL_NUMBER
      · obtain ⟨hmov, hnomatch⟩ := IH.1 hr1
        cases hsym : lookupA syms [c] with
        | none =>
          have hres : Node.findAux (.node syms ch) (c :: rest) =
              (NO_SYMBOL_NUMBER, (1 + (child.findAux rest).2) - 1) := by
            rw [Node.findAux, hch]
            simp [hr1, hsym]
          rw [hres]
          constructor
          · intro _
            refine ⟨by omega, ?_⟩
            intro L h1 h2
            cases L with
            | zero => omega
            | succ M =>
              rw [List.take_succ_cons, Node.lookup_cons]
              by_cases hM : rest.take M = []
              · simp [hM, hsym]
              · have hM1 : 1 ≤ M := by
                  rcases Nat.eq_zero_or_pos M with h3 | h3
                  · rw [h3] at hM
                    simp at hM
                  · omega
                have hM2 : M ≤ rest.length := by simp at h2; omega
                simp [hM, hch, hnomatch M hM1 hM2]
          · intro h
            exact absurd rfl h
        | some n =>
          have hn : n ≠ NO_SYMBOL_NUMBER := hwf.syms_ne hsym
          have hres : Node.findAux (.node syms ch) (c :: rest) =
              (n, 1 + (child.findAux rest).2) := by
            rw [Node.findAux, hch]
            simp [hr1, hsym]
          rw [hres]
          constructor
          · intro h
            exact absurd h hn
          · intro _
            rw [hmov]
            refine ⟨by omega, by simp, ?_, ?_⟩
            · simp [Node.lookup_cons, hsym]
            · intro L h1 h2
              cases L with
              | zero => omega
              | succ M =>
                have hM1 : 1 ≤ M := by omega
                have hM2 : M ≤ rest.length := by simp at h2; omega
                have hM : rest.take M ≠ [] := by
                  intro hcontra
                  rcases List.take_eq_nil_iff.mp hcontra with h3 | h3
                  · omega
                  · rw [h3] at hM2
                    simp at hM2
                    omega
                rw [List.take_succ_cons, Node.lookup_cons, if_neg hM, hch]
                exact hnomatch M hM1 hM2
      · obtain ⟨hge1, hle, hfound, hmax⟩ := IH.2 hr1
        have hres : Node.findAux (.node syms ch) (c :: rest) =
            ((child.findAux rest).1, 1 + (child.findAux rest).2) := by
          rw [Node.findAux, hch]
          simp [hr1]
        rw [hres]
        constructor
        · intro h
          exact absurd h hr1
        · intro _
          have hrestne : rest ≠ [] := by
            intro hcontra
            have hlen0 : rest.length = 0 := by rw [hcontra]; rfl
            omega
          have htake : rest.take (child.findAux rest).2 ≠ [] := by
            intro hcontra
            rcases List.take_eq_nil_iff.mp hcontra with h3 | h3
            · omega
            · exact hrestne h3
          refine ⟨by omega, by simp only [List.length_cons]; omega, ?_, ?_⟩
          · have : 1 + (child.findAux rest).2 = (child.findAux rest).2 + 1 := by omega
            rw [this, List.take_succ_cons, Node.lookup_cons, if_neg htake, hch]
            exact hfound
          · intro L h1 h2
            cases L with
            | zero => omega
            | succ M =>
              have hM1 : (child.findAux rest).2 < M := by omega
              have hM2 : M ≤ rest.length := by simp at h2; omega
              have hM : rest.take M ≠ [] := by
                intro hcontra
                rcases List.take_eq_nil_iff.mp hcontra with h3 | h3
                · omega
                · exact hrestne h3
              rw [List.take_succ_cons, Node.lookup_cons, if_neg hM, hch]
              exact hmax M hM1 hM2

theorem Node.findAux_nil (t : Node) : t.findAux [] = (NO_SYMBOL_NUMBER, 0) := by
  obtain ⟨syms, ch⟩ := t
  rfl

/-- C5: for a letter trie built from a key table (symbol numbers are the
slot indices, which fit in 16 bits), `find` on the cursor `(s, p)` returns
the symbol number registered for the longest registered string that is a
prefix of `s` at `p` and advances the cursor by exactly its length; when no
nonempty registered string is a prefix there, it returns `NO_SYMBOL_NUMBER`
with the cursor unchanged; and when `p ≥ len s` it fails immediately. -/
theorem find_longest_match (kt : List (List Char))
    (hkt : kt.length ≤ NO_SYMBOL_NUMBER) (s : List Char) (p : Nat) :
    (s.length ≤ p →
      Node.find (buildTrie kt) ⟨s, p⟩ = (NO_SYMBOL_NUMBER, ⟨s, p⟩))
    ∧ ((Node.find (buildTrie kt) ⟨s, p⟩).1 = NO_SYMBOL_NUMBER →
        (Node.find (buildTrie kt) ⟨s, p⟩).2 = ⟨s, p⟩ ∧
        ∀ L, 1 ≤ L → p + L ≤ s.length →
          registered kt ((s.drop p).take L) = none)
    ∧ ((Node.find (buildTrie kt) ⟨s, p⟩).1 ≠ NO_SYMBOL_NUMBER →
        ∃ L, 1 ≤ L ∧ p + L ≤ s.length ∧
          registered kt ((s.drop p).take L) =
            some (Node.find (buildTrie kt) ⟨s, p⟩).1 ∧
          (Node.find (buildTrie kt) ⟨s, p⟩).2 = ⟨s, p + L⟩ ∧
          ∀ L2, L < L2 → p + L2 ≤ s.length →
            registered kt ((s.drop p).take L2) = none) := by
  have hwf := wf_buildTrie kt hkt
  have H := Node.findAux_spec (s.drop p) (buildTrie kt) hwf
  have hdrop : (s.drop p).length = s.length - p := List.length_drop _ _
  have hfind : Node.find (buildTrie kt) ⟨s, p⟩ =
      (((buildTrie kt).findAux (s.drop p)).1,
        ⟨s, p + ((buildTrie kt).findAux (s.drop p)).2⟩) := rfl
  refine ⟨?_, ?_, ?_⟩
  · intro hp
    have hnil : s.drop p = [] := List.drop_eq_nil_of_le hp
    rw [hfind, hnil, Node.findAux_nil]
    simp
  · intro h1
    rw [hfind] at h1 ⊢
    simp only at h1 ⊢
    obtain ⟨hmov, hnomatch⟩ := H.1 h1
    constructor
    · rw [hmov]
      simp
    · intro L hL1 hL2
      rw [← lookup_buildTrie]
      exact hnomatch L hL1 (by omega)
  · intro h1
    rw [hfind] at h1 ⊢
    simp only at h1 ⊢
    obtain ⟨hge1, hle, hfound, hmax⟩ := H.2 h1
    refine ⟨((buildTrie kt).findAux (s.drop p)).2, hge1, by omega, ?_, rfl, ?_⟩
    · rw [← lookup_buildTrie]
      exact hfound
    · intro L2 hL1 hL2
      rw [← lookup_buildTrie]
      exact hmax L2 hL1 (by omega)

theorem Node.findAux_fail_consumes_zero (rest : List Char) (t : Node) (hwf : Node.WFv t)
    (h : (t.findAux rest).1 = NO_SYMBOL_NUMBER) : (t.findAux rest).2 = 0 :=
  ((Node.findAux_spec rest t hwf).1 h).1

/-- A failed `findKey` leaves the input cursor exactly where it was. -/
theorem findKey_fail_pos (m : Transducer) (hkt : m.key_table.length ≤ NO_SYMBOL_NUMBER)
    (line : Indexlist Char) (h : (m.letterTrie.findKey line).1 = NO_SYMBOL_NUMBER) :
    (m.letterTrie.findKey line).2 = line := by
  have hwf : Node.WFv m.letterTrie.root := wf_buildTrie _ (by simpa using hkt)
  have h' : (m.letterTrie.root.findAux (line.s.drop line.pos)).1 = NO_SYMBOL_NUMBER := h
  have h0 := Node.findAux_fail_consumes_zero (line.s.drop line.pos) m.letterTrie.root hwf h'
  show ({ line with
    pos := line.pos + (m.letterTrie.root.findAux (line.s.drop line.pos)).2 } : Indexlist Char)
      = line
  rw [h0]
  simp

/-- When the trie cannot match anything at the current cursor, the
tokenization loop never terminates: the cursor does not move and the loop
condition cannot become false. -/
theorem tokenizeLoop_stuck (m : Transducer) (hkt : m.key_table.length ≤ NO_SYMBOL_NUMBER)
    (line : Indexlist Char) (hpos : line.pos < line.s.length)
    (hfail : (m.letterTrie.findKey line).1 = NO_SYMBOL_NUMBER) :
    ∀ (fuel : Nat) (acc : List Nat), tokenizeLoop m.letterTrie line acc fuel = none := by
  intro fuel
  induction fuel with
  | zero => intro acc; rfl
  | succ n ih =>
    intro acc
    rw [tokenizeLoop, if_pos hpos]
    show tokenizeLoop m.letterTrie (m.letterTrie.findKey line).2
      (acc ++ [(m.letterTrie.findKey line).1]) n = none
    rw [findKey_fail_pos m hkt line hfail]
    exact ih _

/-- When the tokenization loop does terminate, either nothing was appended or
the last appended token is a real symbol number (the loop cannot exit right
after a failed lookup, because a failed lookup does not move the cursor). -/
theorem tokenizeLoop_some_last (m : Transducer) (hkt : m.key_table.length ≤ NO_SYMBOL_NUMBER) :
    ∀ (fuel : Nat) (line : Indexlist Char) (acc toks : List Nat),
      tokenizeLoop m.letterTrie line acc fuel = some toks →
      toks = acc ∨ ∃ y, toks.getLast? = some y ∧ y ≠ NO_SYMBOL_NUMBER := by
  intro fuel
  induction fuel with
  | zero =>
    intro line acc toks h
    simp [tokenizeLoop] at h
  | succ n ih =>
    intro line acc toks h
    rw [tokenizeLoop] at h
    by_cases hpos : line.pos < line.s.length
    · rw [if_pos hpos] at h
      have h2 : tokenizeLoop m.letterTrie (m.letterTrie.findKey line).2
          (acc ++ [(m.letterTrie.findKey line).1]) n = some toks := h
      by_cases hfail : (m.letterTrie.findKey line).1 = NO_SYMBOL_NUMBER
      · rw [findKey_fail_pos m hkt line hfail] at h2
        rw [tokenizeLoop_stuck m hkt line hpos hfail n _] at h2
        cases h2
      · rcases ih _ _ _ h2 with h1 | h1
        · refine Or.inr ⟨(m.letterTrie.findKey line).1, ?_, hfail⟩
          rw [h1]
          exact List.getLast?_concat _
        · exact Or.inr h1
    · rw [if_neg hpos] at h
      injection h with h2
      exact Or.inl h2.symm

/-- Whenever `analyze` returns normally, it returns `True`, and the per-call
state fields have been reset (`output_list` is the only field that keeps the
results of the call). -/
theorem analyze_some_true (m : Transducer) (st : SearchState) (fuel : Nat)
    (string : List Char) (b : Bool) (stPost : SearchState)
    (hkt : m.key_table.length ≤ NO_SYMBOL_NUMBER)
    (hfresh : st.inputString = Indexlist.empty)
    (h : m.analyze st fuel string = some (b, stPost)) :
    b = true ∧ stPost.outputString = Indexlist.empty ∧
    stPost.inputString = Indexlist.empty ∧ stPost.stateStack = [Frame.empty] ∧
    stPost.displayVector = [] := by
  rw [Transducer.analyze] at h
  simp only [hfresh] at h
  split at h
  · cases h
  · rename_i toks htok
    split at h
    · cases h
    · rename_i lastTok hlast
      split at h
      · rename_i hcond
        rcases tokenizeLoop_some_last m hkt fuel ⟨string, 0⟩ _ _ htok with h1 | h1
        · rw [h1] at hlast
          cases hlast
        · obtain ⟨y, hy, hyne⟩ := h1
          rw [hy] at hlast
          injection hlast with hl
          exact absurd hcond (hl ▸ hyne)
      · split at h
        · cases h
        · simp only [Option.some.injEq, Prod.mk.injEq] at h
          obtain ⟨hb, hst⟩ := h
          refine ⟨hb.symm, ?_, ?_, ?_, ?_⟩ <;> rw [← hst]

/-! ### Claim theorems -/

/-- C6: for each of the six flag-diacritic operations, `push` implements the
specification's operation table with respect to the top frame: P and N
always succeed setting the feature to `(value, true)` resp. `(value, false)`;
R with nonempty value succeeds iff the feature is positively set to exactly
that value, R with empty value iff the feature is present; D with nonempty
value fails iff the feature is positively set to that value, D with empty
value succeeds iff the feature is absent; C always succeeds removing the
feature; U succeeds iff the feature is absent, or positively set to the
value, or negatively set to anything else, and then sets `(value, true)`. -/
theorem push_implements_table (fd : FlagDiacriticOperation) (T : Frame)
    (rest : List Frame) (hop : fd.operation ∈ (['P', 'N', 'R', 'D', 'C', 'U'] : List Char)) :
    push (T :: rest) fd = some (specPush fd T rest) := by
  obtain ⟨op, feat, val⟩ := fd
  simp only [List.mem_cons, List.not_mem_nil, or_false] at hop
  rcases hop with rfl | rfl | rfl | rfl | rfl | rfl
  · rfl
  · rfl
  · by_cases hv : val = ""
    · cases hlk : lookupA T feat with
      | none => simp [push, specPush, hv, hlk]
      | some q => simp [push, specPush, hv, hlk]
    · by_cases heq : lookupA T feat = some (val, true) <;>
        simp [push, specPush, hv, heq]
  · by_cases hv : val = ""
    · cases hlk : lookupA T feat with
      | none => simp [push, specPush, hv, hlk]
      | some q => simp [push, specPush, hv, hlk]
    · by_cases heq : lookupA T feat = some (val, true) <;>
        simp [push, specPush, hv, heq]
  · rfl
  · cases hlk : lookupA T feat with
    | none => simp [push, specPush, hlk]
    | some q =>
      obtain ⟨v, pol⟩ := q
      cases pol with
      | true =>
        by_cases hveq : v = val <;> simp [push, specPush, hlk, hveq]
      | false =>
        by_cases hveq : v = val <;> simp [push, specPush, hlk, hveq]

/-- Witness for C6 at a concrete operation and stack. -/
theorem push_implements_table_witness :
    ('U' : Char) ∈ (['P', 'N', 'R', 'D', 'C', 'U'] : List Char) ∧
    push ([] :: []) ⟨'U', "F", "v"⟩ = some (specPush ⟨'U', "F", "v"⟩ [] []) :=
  ⟨by decide, push_implements_table ⟨'U', "F", "v"⟩ [] [] (by decide)⟩

/-- C7: a failed `push` leaves the stack exactly as it was; a successful one
pushes exactly one new frame on top of the old stack; and when the engine
meets a flag transition whose `push` fails it moves on to the next
transition with the whole search state (output buffer included)
untouched. -/
theorem push_failure_leaves_stack (fd : FlagDiacriticOperation) :
    (∀ (stack stack2 : List Frame),
      push stack fd = some (false, stack2) → stack2 = stack)
    ∧ (∀ (stack stack2 : List Frame),
      push stack fd = some (true, stack2) → ∃ newTop, stack2 = newTop :: stack)
    ∧ (∀ (m : Transducer) (fuel : Nat) (st : SearchState) (index : Nat) (tr : Transition),
      m.transitions[index]? = some tr → tr.inputSymbol ≠ 0 →
      lookupA m.flagDiacriticOperations tr.inputSymbol = some fd →
      push st.stateStack fd = some (false, st.stateStack) →
      m.run (fuel + 1) st (.tryEpsilonTransitions index) =
        m.run fuel st (.tryEpsilonTransitions (index + 1))) := by
  have key : ∀ (stack stack2 : List Frame) (b : Bool),
      push stack fd = some (b, stack2) →
      (b = false → stack2 = stack) ∧ (b = true → ∃ newTop, stack2 = newTop :: stack) := by
    intro stack stack2 b h
    match stack with
    | [] => simp [push] at h
    | T :: rest =>
      rw [push] at h
      repeat' split at h
      all_goals
        simp only [Option.some.injEq, Prod.mk.injEq] at h
      all_goals
        obtain ⟨hb, hs⟩ := h
      all_goals
        subst hb
      all_goals
        constructor
      all_goals
        intro hh
      all_goals
        first
          | exact hs.symm
          | exact ⟨_, hs.symm⟩
          | cases hh
  refine ⟨fun st1 st2 h => (key st1 st2 false h).1 rfl,
          fun st1 st2 h => (key st1 st2 true h).2 rfl, ?_⟩
  intro m fuel st index tr htr hne hflag hpush
  simp only [Transducer.run, htr, hflag, hpush, if_neg hne]

/-- Witness for C7: a failing `R` flag on the fresh stack, and the engine
skipping the corresponding flag transition of `mFlag`. -/
theorem push_failure_leaves_stack_witness :
    push SearchState.fresh.stateStack ⟨'R', "F", "v"⟩ =
      some (false, SearchState.fresh.stateStack) ∧
    mFlag.run 3 SearchState.fresh (.tryEpsilonTransitions 1) =
      mFlag.run 2 SearchState.fresh (.tryEpsilonTransitions 2) :=
  ⟨by decide,
    (push_failure_leaves_stack ⟨'R', "F", "v"⟩).2.2 mFlag 2 SearchState.fresh 1
      ⟨1, 0, TRANSITION_TARGET_TABLE_START + 0⟩ (by decide) (by decide) (by decide) (by decide)⟩

/-- C5 main theorem is `find_longest_match` above; this witness applies it to
the trie of the key table `["", "a", "abc"]` on the input `"abx"` at
position 0, an input whose tentative match of `"ab..."` must backtrack to
the registered one-character prefix `"a"`. -/
theorem find_longest_match_witness :
    ([[], ['a'], ['a', 'b', 'c']] : List (List Char)).length ≤ NO_SYMBOL_NUMBER ∧
    ((['a', 'b', 'x'] : List Char).length ≤ 0 →
      Node.find (buildTrie [[], ['a'], ['a', 'b', 'c']]) ⟨['a', 'b', 'x'], 0⟩ =
        (NO_SYMBOL_NUMBER, ⟨['a', 'b', 'x'], 0⟩))
    ∧ ((Node.find (buildTrie [[], ['a'], ['a', 'b', 'c']]) ⟨['a', 'b', 'x'], 0⟩).1 =
          NO_SYMBOL_NUMBER →
        (Node.find (buildTrie [[], ['a'], ['a', 'b', 'c']]) ⟨['a', 'b', 'x'], 0⟩).2 =
          ⟨['a', 'b', 'x'], 0⟩ ∧
        ∀ L, 1 ≤ L → 0 + L ≤ (['a', 'b', 'x'] : List Char).length →
          registered [[], ['a'], ['a', 'b', 'c']] (((['a', 'b', 'x'] : List Char).drop 0).take L)
            = none)
    ∧ ((Node.find (buildTrie [[], ['a'], ['a', 'b', 'c']]) ⟨['a', 'b', 'x'], 0⟩).1 ≠
          NO_SYMBOL_NUMBER →
        ∃ L, 1 ≤ L ∧ 0 + L ≤ (['a', 'b', 'x'] : List Char).length ∧
          registered [[], ['a'], ['a', 'b', 'c']] (((['a', 'b', 'x'] : List Char).drop 0).take L)
            = some (Node.find (buildTrie [[], ['a'], ['a', 'b', 'c']]) ⟨['a', 'b', 'x'], 0⟩).1 ∧
          (Node.find (buildTrie [[], ['a'], ['a', 'b', 'c']]) ⟨['a', 'b', 'x'], 0⟩).2 =
            ⟨['a', 'b', 'x'], 0 + L⟩ ∧
          ∀ L2, L < L2 → 0 + L2 ≤ (['a', 'b', 'x'] : List Char).length →
            registered [[], ['a'], ['a', 'b', 'c']]
              (((['a', 'b', 'x'] : List Char).drop 0).take L2) = none) :=
  ⟨by decide, find_longest_match [[], ['a'], ['a', 'b', 'c']] (by decide) ['a', 'b', 'x'] 0⟩

/-- C1 (code-bug evidence): on the transducer `mUntok`, whose alphabet is
`{"", "a"}`, the input `"b"` cannot be tokenized; `analyze` then never
returns, for any fuel and from any starting state — the tokenization loop's
broken exit condition (`inputString.last` is compared unapplied) keeps it
spinning on the unmoving cursor — and so `feed` never returns either,
instead of returning the empty result the spec promises. -/
theorem analyze_untokenizable_diverges (fuel : Nat) (st : SearchState) :
    mUntok.analyze st fuel ['b'] = none ∧ feed mUntok st fuel ['b'] true = none := by
  have hkt : mUntok.key_table.length ≤ NO_SYMBOL_NUMBER := by decide
  have hfail : (mUntok.letterTrie.findKey ⟨['b'], 0⟩).1 = NO_SYMBOL_NUMBER := by decide
  have hpos : (⟨['b'], 0⟩ : Indexlist Char).pos < (⟨['b'], 0⟩ : Indexlist Char).s.length := by
    decide
  have hstuck := tokenizeLoop_stuck mUntok hkt ⟨['b'], 0⟩ hpos hfail fuel
  have hana : mUntok.analyze st fuel ['b'] = none := by
    rw [Transducer.analyze]
    rw [hstuck]
  refine ⟨hana, ?_⟩
  rw [feed, if_neg (by decide), hana]

/-- C2 (code-bug evidence): on the transducer `mEps` the engine explores the
epsilon arc out of the accepting state before emitting, and the emission then
sweeps in the stale `"X"` the branch left at the current output position:
the recorded analysis is `["a", "X"]`, not the translation `["a"]` of the
output prefix `output[0..pos]`. -/
theorem noteAnalysis_includes_stale_symbol :
    (mEps.analyze SearchState.fresh 50 ['a']).map (fun r => r.2.output_list) =
      some [["a", "X"]] ∧
    ([["a", "X"]] : List (List String)) ≠ [["a"]] :=
  ⟨rfl, by decide⟩

/-- C3 counterexample: on `["a", "+N", "b"]` the buffer is not emptied by the
flush at `"+N"`, so the final flush emits `"ab"`, not the `"b"` the claim's
"exactly the single-character symbols since the previous flush" predicts. -/
theorem concat_res_counterexample :
    concat_res ["a", "+N", "b"] = ["a", "+N", "ab"] ∧
    concat_res ["a", "+N", "b"] ≠ ["a", "+N", "b"] :=
  ⟨rfl, by decide⟩

theorem allSingles_concat (seen : List String) (x : String) :
    allSingles (seen ++ [x]) =
      if x.length = 1 then allSingles seen ++ x else allSingles seen := by
  induction seen with
  | nil =>
    by_cases hx : x.length = 1 <;>
      simp [allSingles, hx, String.empty_append, String.append_empty]
  | cons y rest ih =>
    by_cases hy : y.length = 1
    · by_cases hx : x.length = 1 <;>
        simp [allSingles, hy, hx, ih, String.append_assoc]
    · by_cases hx : x.length = 1 <;> simp [allSingles, hy, hx, ih]

theorem lastIsSingle_concat (seen : List String) (x : String) :
    lastIsSingle (seen ++ [x]) = decide (x.length = 1) := by
  rw [lastIsSingle, List.getLast?_concat]

/-- The loop of `concat_res`, stated against the amended rule: when the
buffer holds all single-character symbols of the processed prefix and the
flag records whether that prefix ends in one, the remaining outputs are the
amended rule's outputs. -/
theorem concatGo_amended : ∀ (l seen res : List String),
    concatGo (allSingles seen) (lastIsSingle seen) res l = res ++ amendedConcatGo seen l := by
  intro l
  induction l with
  | nil =>
    intro seen res
    rw [concatGo, amendedConcatGo]
    by_cases hs : lastIsSingle seen <;> simp [hs]
  | cons x rest ih =>
    intro seen res
    rw [concatGo, amendedConcatGo]
    by_cases hx : x.length = 1
    · rw [if_pos hx, if_pos hx]
      have hgo := ih (seen ++ [x]) res
      have he1 : allSingles (seen ++ [x]) = allSingles seen ++ x := by
        rw [allSingles_concat, if_pos hx]
      have he2 : lastIsSingle (seen ++ [x]) = true := by
        rw [lastIsSingle_concat]
        simp [hx]
      rw [he1, he2] at hgo
      exact hgo
    · rw [if_neg hx, if_neg hx]
      have hgo := ih (seen ++ [x])
        ((if lastIsSingle seen = true then res ++ [allSingles seen] else res) ++ [x])
      have he1 : allSingles (seen ++ [x]) = allSingles seen := by
        rw [allSingles_concat, if_neg hx]
      have he2 : lastIsSingle (seen ++ [x]) = false := by
        rw [lastIsSingle_concat]
        simp [hx]
      rw [he1, he2] at hgo
      rw [hgo]
      by_cases hs : lastIsSingle seen
      · rw [hs]
        simp
      · simp only [hs]
        simp

/-- C3 amended: `concat_res` walks left-to-right flushing at each long
symbol and at the end, but the flush does not empty the buffer: each flushed
string is the concatenation of *all* single-character symbols seen since the
start of the list; long symbols pass through unchanged in order. -/
theorem concat_res_eq_amended (l : List String) : concat_res l = amendedConcat l := by
  have h := concatGo_amended l [] []
  rw [concat_res, amendedConcat]
  have h1 : allSingles [] = "" := rfl
  have h2 : lastIsSingle [] = false := rfl
  rw [h1, h2] at h
  simpa using h

/-- C4 counterexample: `analyze` does mutate the Transducer's fields — on
`mEps`, starting from the freshly-constructed state, the call leaves the
accumulated analyses in the object's `output_list` field, so the state after
the call differs from the state before it. -/
theorem analyze_mutates_transducer_state :
    mEps.analyze SearchState.fresh 50 ['a'] = some (true, mEpsPost) ∧
    mEpsPost.output_list ≠ SearchState.fresh.output_list :=
  ⟨rfl, by decide⟩

/-- C4 amended: the search state lives in mutable fields of the Transducer
object and `analyze` writes them; whenever `analyze` returns normally it has
reset `outputString`, `inputString`, `displayVector` and the flag stack, but
`output_list` keeps the analyses on the object (that is where `feed` reads
them). -/
theorem analyze_resets_per_call_fields (m : Transducer) (st : SearchState) (fuel : Nat)
    (string : List Char) (b : Bool) (stPost : SearchState)
    (hkt : m.key_table.length ≤ NO_SYMBOL_NUMBER)
    (hfresh : st.inputString = Indexlist.empty)
    (h : m.analyze st fuel string = some (b, stPost)) :
    stPost.outputString = Indexlist.empty ∧ stPost.inputString = Indexlist.empty ∧
    stPost.stateStack = [Frame.empty] ∧ stPost.displayVector = [] :=
  (analyze_some_true m st fuel string b stPost hkt hfresh h).2

/-- Witness for C4's amended theorem at the concrete run of `mEps` on
`"a"`. -/
theorem analyze_resets_per_call_fields_witness :
    mEps.key_table.length ≤ NO_SYMBOL_NUMBER ∧
    SearchState.fresh.inputString = Indexlist.empty ∧
    mEps.analyze SearchState.fresh 50 ['a'] = some (true, mEpsPost) ∧
    (mEpsPost.outputString = Indexlist.empty ∧ mEpsPost.inputString = Indexlist.empty ∧
      mEpsPost.stateStack = [Frame.empty] ∧ mEpsPost.displayVector = []) :=
  ⟨by decide, rfl, rfl,
    analyze_resets_per_call_fields mEps SearchState.fresh 50 ['a'] true mEpsPost
      (by decide) rfl rfl⟩

/-- C9: whenever `Transducer.analyze` returns normally (from a
freshly-constructed or properly reset state, with the 16-bit symbol count
every loaded transducer has), it returns `True`: the `matched = false`
return after tokenization is unreachable, because a failed trie lookup
leaves the cursor in place (so the loop never exits) and the loop's second
condition compares the unapplied method `inputString.last` against
`NO_SYMBOL_NUMBER`, which is always true. -/
theorem analyze_terminates_implies_true (m : Transducer) (st : SearchState) (fuel : Nat)
    (string : List Char) (b : Bool) (stPost : SearchState)
    (hkt : m.key_table.length ≤ NO_SYMBOL_NUMBER)
    (hfresh : st.inputString = Indexlist.empty)
    (h : m.analyze st fuel string = some (b, stPost)) : b = true :=
  (analyze_some_true m st fuel string b stPost hkt hfresh h).1

/-- Witness for C9 at the terminating run of `mEps` on `"a"`. -/
theorem analyze_terminates_implies_true_witness :
    mEps.key_table.length ≤ NO_SYMBOL_NUMBER ∧
    SearchState.fresh.inputString = Indexlist.empty ∧
    mEps.analyze SearchState.fresh 50 ['a'] = some (true, mEpsPost) ∧ true = true :=
  ⟨by decide, rfl, rfl,
    analyze_terminates_implies_true mEps SearchState.fresh 50 ['a'] true mEpsPost
      (by decide) rfl rfl⟩

/-- C8 counterexample: on a stream laid out exactly as the claim says —
magic, 2-byte little-endian length 0, zero preamble bytes, then a 56-byte
header block (first field 7) and table bytes — the loader does *not* parse
the header fields from that block: it consumes the block's first byte as
part of a 3-byte length read. -/
theorem parseHeader_counterexample :
    parseHeader streamC8 ≠ .ok (parseHeaderFields hdrBlock, List.replicate 8 9) := by
  decide

/-- C8 amended: after the magic the loader consumes exactly *three* bytes,
taking the little-endian preamble length R from the first two and discarding
the third, then skips exactly R bytes and reads the 56-byte fixed header: for
every stream laid out as magic + u16 R + one padding byte + R preamble bytes
+ 56-byte header + tables, the header fields are parsed from those 56
bytes. -/
theorem parseHeader_layout (r0 r1 pad : Nat) (pre hdr tables : List Nat)
    (hpre : pre.length = r0 + 256 * r1) (hhdr : hdr.length = 56) :
    parseHeader ([72, 70, 83, 84, 0] ++ [r0, r1, pad] ++ pre ++ hdr ++ tables) =
      .ok (parseHeaderFields hdr, tables) := by
  have hlen : ([72, 70, 83, 84, 0] ++ [r0, r1, pad] ++ pre ++ hdr ++ tables).length =
      8 + pre.length + 56 + tables.length := by
    simp [hhdr]
    omega
  rw [parseHeader]
  rw [if_neg (by omega)]
  have htake5 : ([72, 70, 83, 84, 0] ++ ([r0, r1, pad] ++ pre ++ hdr ++ tables)).take 5 =
      [72, 70, 83, 84, 0] := rfl
  have hdrop5 : ([72, 70, 83, 84, 0] ++ ([r0, r1, pad] ++ pre ++ hdr ++ tables)).drop 5 =
      [r0, r1, pad] ++ pre ++ hdr ++ tables := rfl
  simp only [List.append_assoc] at htake5 hdrop5 ⊢
  rw [htake5, hdrop5, if_pos rfl]
  have htake3 : (([r0, r1, pad] : List Nat) ++ (pre ++ (hdr ++ tables))).take 3 =
      [r0, r1, pad] := rfl
  have hdrop3 : (([r0, r1, pad] : List Nat) ++ (pre ++ (hdr ++ tables))).drop 3 =
      pre ++ (hdr ++ tables) := rfl
  simp only [List.append_assoc] at htake3 hdrop3
  rw [htake3, hdrop3]
  rw [if_neg (by simp)]
  have hleNum : leNum (([r0, r1, pad] : List Nat).take 2) = r0 + 256 * r1 := by
    simp [leNum]
  rw [hleNum]
  have hlen2 : (pre ++ (hdr ++ tables)).length = pre.length + 56 + tables.length := by
    simp [hhdr]
    omega
  rw [if_neg (by omega)]
  have hdropR : (pre ++ (hdr ++ tables)).drop (r0 + 256 * r1) = hdr ++ tables := by
    rw [← hpre]
    exact List.drop_left pre (hdr ++ tables)
  rw [hdropR]
  have hlen3 : (hdr ++ tables).length = 56 + tables.length := by simp [hhdr]
  rw [if_neg (by omega)]
  have htake56 : (hdr ++ tables).take 56 = hdr := by
    rw [← hhdr]
    exact List.take_left hdr tables
  have hdrop56 : (hdr ++ tables).drop 56 = tables := by
    rw [← hhdr]
    exact List.drop_left hdr tables
  rw [htake56, hdrop56]

/-- Witness for C8's amended theorem on a concrete stream with R = 1. -/
theorem parseHeader_layout_witness :
    ([5] : List Nat).length = 1 + 256 * 0 ∧ (List.replicate 56 1 : List Nat).length = 56 ∧
    parseHeader ([72, 70, 83, 84, 0] ++ [1, 0, 7] ++ [5] ++ List.replicate 56 1 ++ [3, 3]) =
      .ok (parseHeaderFields (List.replicate 56 1), [3, 3]) :=
  ⟨by decide, by decide,
    parseHeader_layout 1 0 7 [5] (List.replicate 56 1) [3, 3] (by decide) (by decide)⟩

/-- C10: declaring `number_of_symbols = 0` makes the alphabet parser fail
with the out-of-range index error from `key_table[0] = ""` on the empty key
table, whatever the bytes on disk — and `from_file` surfaces exactly that
error rather than an empty alphabet or a malformed-file error; for any
successfully parsed alphabet (so `number_of_symbols ≥ 1`), slot 0 of the key
table is the empty string regardless of the bytes on disk. -/
theorem alphabet_forces_slot_zero :
    (∀ stream : List Nat, parseAlphabet stream 0 = .error .indexError)
    ∧ (∀ (stream : List Nat) (n : Nat) (al : Alphabet) (rest : List Nat),
        parseAlphabet stream n = .ok (al, rest) → al.key_table.head? = some "")
    ∧ (∀ (stream : List Nat) (h : Header) (rest : List Nat),
        parseHeader stream = .ok (h, rest) → h.number_of_symbols = 0 →
        from_file stream = .error .indexError) := by
  have part1 : ∀ stream : List Nat, parseAlphabet stream 0 = .error .indexError := by
    intro stream
    rfl
  refine ⟨part1, ?_, ?_⟩
  · intro stream n al rest h
    rw [parseAlphabet] at h
    split at h
    · cases h
    · rename_i kt ops rest2 hloop
      split at h
      · cases h
      · rename_i x tail
        simp only [Except.ok.injEq, Prod.mk.injEq] at h
        obtain ⟨hal, _⟩ := h
        rw [← hal]
        rfl
  · intro stream h rest hparse hzero
    rw [from_file, hparse]
    simp [hzero, part1 rest]

/-- Witness for C10: a zero-symbol alphabet always fails with the index
error; a one-symbol alphabet comes back with slot 0 forced to the empty
string; and an all-zero 56-byte file (whose header declares zero symbols)
fails to load with exactly the index error. -/
theorem alphabet_forces_slot_zero_witness :
    parseAlphabet [1, 2, 3] 0 = .error .indexError ∧
    (parseAlphabet [97, 0] 1 = .ok (⟨[""], []⟩, []) ∧
      (⟨[""], []⟩ : Alphabet).key_table.head? = some "") ∧
    (parseHeader (List.replicate 56 0) = .ok (parseHeaderFields (List.replicate 56 0), []) ∧
      (parseHeaderFields (List.replicate 56 0)).number_of_symbols = 0 ∧
      from_file (List.replicate 56 0) = .error .indexError) :=
  ⟨alphabet_forces_slot_zero.1 [1, 2, 3],
   ⟨by decide, alphabet_forces_slot_zero.2.1 [97, 0] 1 ⟨[""], []⟩ [] (by decide)⟩,
   ⟨by decide, by decide,
     alphabet_forces_slot_zero.2.2 (List.replicate 56 0)
       (parseHeaderFields (List.replicate 56 0)) [] (by decide) (by decide)⟩⟩

end Hfstol
